import Mathlib

/-!
# Verification of the offline-first sync/merge engine

Shallow embedding of the synchronization core of the case-management
repository (hooks `useSync` / `useOnlineData` / `useSupabaseData`), and results
settling the frozen claims C1–C10 about it.

Conventions of the embedding:
* JavaScript timestamps (`new Date(x).getTime()`) are modelled as `Nat`
  milliseconds; a possibly-absent `updated_at` is `Option Nat`, and the source's
  `new Date(x.updated_at || 0).getTime()` becomes `(·.updated_at.getD 0)`.
* A JavaScript `Map` is modelled as an association list with unique keys in
  insertion order: `set` replaces the (unique) existing binding in place or
  appends; `Array.from(map.values())` is `jsValues`.
* Fallible remote calls are oracles of type `Except` / `Bool` passed as
  arguments; `try/catch` becomes a `match` on the oracle.
-/

namespace LawSync

/-- JS `Map.prototype.set`: replace the first (unique) binding in place,
otherwise append; this preserves insertion order exactly as JS `Map` does. -/
def jsSet : List (String × α) → String → α → List (String × α)
  | [], k, v => [(k, v)]
  | p :: rest, k, v => if p.1 = k then (k, v) :: rest else p :: jsSet rest k v

/-- JS `Map.prototype.get` (`undefined` is `none`). -/
def jsGet : List (String × α) → String → Option α
  | [], _ => none
  | p :: rest, k => if p.1 = k then some p.2 else jsGet rest k

/-- JS `Map.prototype.has`. -/
def jsHas (m : List (String × α)) (k : String) : Bool :=
  (jsGet m k).isSome

/-- JS `Array.from(map.values())`. -/
def jsValues (m : List (String × α)) : List α :=
  m.map Prod.snd

/-- `new Map(items.map(i => [key(i), i]))` — left-to-right insertion,
later duplicates overwrite earlier ones, as in JS. -/
def jsMapOfList (key : α → String) (l : List α) : List (String × α) :=
  l.foldl (fun m i => jsSet m (key i) i) []

/-- `CaseDocument.localState` (types.ts). -/
inductive DocState where
  | pending_upload
  | synced
  | pending_download
  | cloud_only
  | downloading
  | error
deriving DecidableEq, Repr

/-- A flat sync record, uniform over the synced collections.  `id` is the
record identity (`i.id ?? i.name`; for `assistants` the natural key `name`
plays the role of `id`).  `fk` is the value of the parent foreign-key property
the sync code reads for the record's collection (`client_id` for cases and
invoices, `case_id` for stages, `stage_id` for sessions, `invoice_id` for
invoice items, `caseId` for case documents); `none` models the property being
absent (`undefined`).  `state` is meaningful only for `case_documents`
(`localState`); `payload` stands for all remaining fields. -/
structure MRec where
  id : String
  updated_at : Option Nat
  fk : Option String
  state : DocState
  payload : String
deriving DecidableEq, Repr

/-- `new Date(item.updated_at || 0).getTime()`. -/
def timeOf (r : MRec) : Nat :=
  r.updated_at.getD 0

/-- Result of one per-collection merge: the merged collection and the records
to push (`itemsToUpsert`). -/
structure MergeOut where
  merged : List MRec
  upserts : List MRec
deriving DecidableEq, Repr

/-- Per-collection merge loop of `manualSync` (useSync, part_001 lines
303–345): phase 1 walks the local items — a locally-new item is merged and
pushed; for an item present on both sides the strictly newer `updated_at`
wins and a winning local version is pushed, ties going to the remote
version — and phase 2 adds remote-only items unless their id is in the local
deletion log for the collection.  The dead `isParentDeleted` check of the
source (always `false`) is omitted. -/
def mergeCollection (localItems remoteItems : List MRec) (deletedSet : List String) :
    MergeOut :=
  let remoteMap := jsMapOfList MRec.id remoteItems
  let localMap := jsMapOfList MRec.id localItems
  let step1 :=
    localItems.foldl
      (fun (acc : List (String × MRec) × List MRec) localItem =>
        match jsGet remoteMap localItem.id with
        | some remoteItem =>
          if timeOf localItem > timeOf remoteItem then
            (jsSet acc.1 localItem.id localItem, acc.2 ++ [localItem])
          else
            (jsSet acc.1 localItem.id remoteItem, acc.2)
        | none => (jsSet acc.1 localItem.id localItem, acc.2 ++ [localItem]))
      ([], [])
  let finalMap :=
    remoteItems.foldl
      (fun fm remoteItem =>
        if jsHas localMap remoteItem.id then fm
        else if deletedSet.contains remoteItem.id then fm
        else jsSet fm remoteItem.id remoteItem)
      step1.1
  ⟨jsValues finalMap, step1.2⟩

/-- The merged value phase 1 stores for a local item. -/
def mergeChoice (remoteMap : List (String × MRec)) (localItem : MRec) : MRec :=
  match jsGet remoteMap localItem.id with
  | some remoteItem => if timeOf localItem > timeOf remoteItem then localItem else remoteItem
  | none => localItem

/-- Whether phase 1 pushes a local item. -/
def pushPred (remoteMap : List (String × MRec)) (localItem : MRec) : Bool :=
  match jsGet remoteMap localItem.id with
  | some remoteItem => decide (timeOf localItem > timeOf remoteItem)
  | none => true

/-- A row of the `sync_deletions` tombstone log (types.ts `SyncDeletion`);
`deleted_at` is the timestamp in milliseconds. -/
structure TombM where
  table_name : String
  record_id : String
  deleted_at : Nat
deriving DecidableEq, Repr

/-- The `deletionMap` of `applyDeletionsToLocal` (part_001 lines 110–113):
`"table:recordId" -> deleted_at`. -/
def deletionMap (dels : List TombM) : List (String × Nat) :=
  dels.foldl (fun m t => jsSet m (t.table_name ++ ":" ++ t.record_id) t.deleted_at) []

/-- `filterItems` of `applyDeletionsToLocal` (part_001 lines 115–131): an item
matched by a tombstone is removed when its `updated_at` is below the
tombstone's `deleted_at` plus the 2000 ms grace window. -/
def filterItems (items : List MRec) (tableName : String)
    (dm : List (String × Nat)) : List MRec :=
  items.filter fun item =>
    match jsGet dm (tableName ++ ":" ++ item.id) with
    | some deletedAt => ! decide (timeOf item < deletedAt + 2000)
    | none => true

/-- Fuel-driven worker for batch splitting (`records.slice(i, i + BATCH_SIZE)`
in a loop); fuel `records.length` suffices for any positive batch size. -/
def chunkAux (B : Nat) : Nat → List α → List (List α)
  | 0, _ => []
  | _, [] => []
  | fuel + 1, l => l.take B :: chunkAux B fuel (l.drop B)

/-- The batches of the batched-upsert loop (`upsertDataToSupabase` in
hooks/useOnlineData.ts lines 205–218, `BATCH_SIZE = 40`; `upsertInBatches` in
part_000 lines 377–389, `BATCH_SIZE = 200`): consecutive slices of `B`
records. -/
def chunkList (B : Nat) (l : List α) : List (List α) :=
  chunkAux B l.length l

/-- Outcome of running the batch loop against a remote that fails the batches
selected by an oracle: the batches committed before the first failure, the
index of the failing batch (the loop throws there), and the batches for which
an upsert call was issued at all. -/
structure BatchRun (α : Type) where
  committed : List (List α)
  failedAt : Option Nat
  attempted : List Nat
deriving DecidableEq, Repr

/-- The sequential batch loop: upsert batch `k`; on error throw (halting the
loop), otherwise continue with batch `k + 1`. -/
def runBatches (fails : Nat → Bool) : List (List α) → Nat → BatchRun α
  | [], _ => ⟨[], none, []⟩
  | b :: bs, k =>
    if fails k then ⟨[], some k, [k]⟩
    else
      let r := runBatches fails bs (k + 1)
      ⟨b :: r.committed, r.failedAt, k :: r.attempted⟩

/-! ### Hierarchical document model (flatten / reconstruct, hooks/useSync.ts)

The record structures mirror the runtime objects: each carries its `id`, the
foreign-key properties the flatten/construct code reads or writes (both the
snake_case one injected by `flattenData` and the camelCase fallback read by
`constructData`), its child array, and `rest` for every remaining field.
`Option String` models a possibly-absent (`undefined`) property.  Date
re-wrapping (`new Date(x)` on a `Date`) is value-identity and is folded into
`rest`; collections that flatten/construct only pass through are modelled as
opaque `List String`. -/

/-- A judicial session (types.ts `Session`); `stage_id` is injected by
`flattenData`, `stageId` is the optional camelCase field of the interface. -/
structure JSession where
  id : String
  stage_id : Option String
  stageId : Option String
  rest : String
deriving DecidableEq, Repr

/-- A litigation stage (types.ts `Stage`). -/
structure JStage where
  id : String
  case_id : Option String
  caseId : Option String
  sessions : List JSession
  rest : String
deriving DecidableEq, Repr

/-- A legal case (types.ts `Case`). -/
structure JCase where
  id : String
  client_id : Option String
  clientId : Option String
  stages : List JStage
  rest : String
deriving DecidableEq, Repr

/-- A client (types.ts `Client`). -/
structure JClient where
  id : String
  cases : List JCase
  rest : String
deriving DecidableEq, Repr

/-- An invoice line item (types.ts `InvoiceItem`); `invoice_id` is optional in
the interface and injected by `flattenData`. -/
structure JInvoiceItem where
  id : String
  invoice_id : Option String
  rest : String
deriving DecidableEq, Repr

/-- An invoice (types.ts `Invoice`). -/
structure JInvoice where
  id : String
  items : List JInvoiceItem
  rest : String
deriving DecidableEq, Repr

/-- `FlatData` (hooks/useOnlineData.ts): the flat, foreign-keyed relation
set.  In this source version `flattenData` does not strip the nested arrays
from `cases`/`stages` (it only injects the parent ids), so those fields keep
their child lists; `clients` and `invoices` have their child array removed by
destructuring, modelled as setting it to `[]` (the field is overwritten by
`constructData` before it is ever read). -/
structure JFlat where
  clients : List JClient
  cases : List JCase
  stages : List JStage
  sessions : List JSession
  admin_tasks : List String
  appointments : List String
  accounting_entries : List String
  assistants : List String
  invoices : List JInvoice
  invoice_items : List JInvoiceItem
  case_documents : List String
  profiles : List String
  site_finances : List String
deriving DecidableEq, Repr

/-- `AppData` (types.ts), restricted to the collections the
flatten/reconstruct pair handles.  (`assistants : string[]` round-trips
through `{name}` wrappers name-for-name and is modelled as the name list.) -/
structure JApp where
  clients : List JClient
  adminTasks : List String
  appointments : List String
  accountingEntries : List String
  assistants : List String
  invoices : List JInvoice
  documents : List String
  profiles : List String
  siteFinances : List String
deriving DecidableEq, Repr

/-- JS truthiness of a possibly-absent string: `undefined` and `""` are
falsy. -/
def truthyStr : Option String → Option String
  | some s => if s = "" then none else some s
  | none => none

/-- The grouping key `x.snake || x.camel` under the guard `if (key)`: the
first truthy of the two properties, `none` when both are falsy (in which case
`constructData` skips the record). -/
def jsOrKey (a b : Option String) : Option String :=
  match truthyStr a with
  | some s => some s
  | none => truthyStr b

/-- `flattenData` (hooks/useSync.ts lines 22–39): inject `client_id`,
`case_id`, `stage_id` and `invoice_id` into the child records and lay the
collections out flat. -/
def flattenData (data : JApp) : JFlat :=
  let cases := data.clients.flatMap fun c =>
    c.cases.map fun cs => { cs with client_id := some c.id }
  let stages := cases.flatMap fun cs =>
    cs.stages.map fun st => { st with case_id := some cs.id }
  let sessions := stages.flatMap fun st =>
    st.sessions.map fun s => { s with stage_id := some st.id }
  { clients := data.clients.map fun c => { c with cases := [] }
    cases := cases
    stages := stages
    sessions := sessions
    admin_tasks := data.adminTasks
    appointments := data.appointments
    accounting_entries := data.accountingEntries
    assistants := data.assistants
    invoices := data.invoices.map fun inv => { inv with items := [] }
    invoice_items := data.invoices.flatMap fun inv =>
      inv.items.map fun i => { i with invoice_id := some inv.id }
    case_documents := data.documents
    profiles := data.profiles
    site_finances := data.siteFinances }

/-- The `sessionMap` bucket of `constructData` for a stage id: the JS code
groups the flat sessions into a `Map` keyed by `s.stage_id || s.stageId`
(skipping sessions whose key is falsy) and reads `sessionMap.get(st.id) ||
[]`; the bucket retrieved for an id is exactly the in-order sublist of
sessions whose effective key equals it. -/
def sessionsFor (f : JFlat) (stid : String) : List JSession :=
  f.sessions.filter fun s => jsOrKey s.stage_id s.stageId = some stid

/-- The stage objects as `constructData` pushes them into `stageMap`: each
flat stage with its session bucket attached. -/
def stagesWithSessions (f : JFlat) : List JStage :=
  f.stages.map fun st => { st with sessions := sessionsFor f st.id }

/-- The `stageMap` bucket for a case id (`stageMap.get(cs.id) || []`). -/
def stagesFor (f : JFlat) (cid : String) : List JStage :=
  (stagesWithSessions f).filter fun st => jsOrKey st.case_id st.caseId = some cid

/-- The case objects as `constructData` pushes them into `caseMap`. -/
def casesWithStages (f : JFlat) : List JCase :=
  f.cases.map fun cs => { cs with stages := stagesFor f cs.id }

/-- The `caseMap` bucket for a client id (`caseMap.get(c.id) || []`). -/
def casesFor (f : JFlat) (clid : String) : List JCase :=
  (casesWithStages f).filter fun cs => jsOrKey cs.client_id cs.clientId = some clid

/-- `constructData` (hooks/useSync.ts lines 41–83): rebuild the hierarchy by
attaching to every parent its bucket of children (see `sessionsFor`).
Invoice items are attached by the strict comparison
`i.invoice_id === inv.id`. -/
def constructData (flatData : JFlat) : JApp :=
  { clients := flatData.clients.map fun c => { c with cases := casesFor flatData c.id }
    adminTasks := flatData.admin_tasks
    appointments := flatData.appointments
    accountingEntries := flatData.accounting_entries
    assistants := flatData.assistants
    invoices := flatData.invoices.map fun inv =>
      { inv with items := flatData.invoice_items.filter fun i => i.invoice_id = some inv.id }
    documents := flatData.case_documents
    profiles := flatData.profiles
    siteFinances := flatData.site_finances }

/-- A session as the round trip returns it: `stage_id` set to the parent
stage's id. -/
def annSession (sid : String) (s : JSession) : JSession :=
  { s with stage_id := some sid }

/-- A stage as the round trip returns it. -/
def annStage (cid : String) (st : JStage) : JStage :=
  { st with case_id := some cid, sessions := st.sessions.map (annSession st.id) }

/-- A case as the round trip returns it. -/
def annCase (clid : String) (cs : JCase) : JCase :=
  { cs with client_id := some clid, stages := cs.stages.map (annStage cs.id) }

/-- A client as the round trip returns it. -/
def annClient (c : JClient) : JClient :=
  { c with cases := c.cases.map (annCase c.id) }

/-- An invoice as the round trip returns it. -/
def annInvoice (inv : JInvoice) : JInvoice :=
  { inv with items := inv.items.map fun i => { i with invoice_id := some inv.id } }

/-- The hierarchical document with every child's snake_case parent-FK field
overwritten by its actual parent's id — the exact image of the
flatten/reconstruct round trip. -/
def annApp (h : JApp) : JApp :=
  { h with clients := h.clients.map annClient, invoices := h.invoices.map annInvoice }

/-- Type of a stage canonicalised up to child-array order. -/
abbrev CanonStageT : Type :=
  String × Option String × Option String × Multiset JSession × String

instance : DecidableEq CanonStageT := inferInstance

/-- Type of a case canonicalised up to child-array order. -/
abbrev CanonCaseT : Type :=
  String × Option String × Option String × Multiset CanonStageT × String

instance : DecidableEq CanonCaseT := inferInstance

/-- Type of a client canonicalised up to child-array order. -/
abbrev CanonClientT : Type := String × Multiset CanonCaseT × String

instance : DecidableEq CanonClientT := inferInstance

/-- Type of an invoice canonicalised up to item order. -/
abbrev CanonInvoiceT : Type := String × Multiset JInvoiceItem × String

instance : DecidableEq CanonInvoiceT := inferInstance

/-- Type of a hierarchical document canonicalised up to array order. -/
structure CanonAppT where
  clients : Multiset CanonClientT
  adminTasks : Multiset String
  appointments : Multiset String
  accountingEntries : Multiset String
  assistants : Multiset String
  invoices : Multiset CanonInvoiceT
  documents : Multiset String
  profiles : Multiset String
  siteFinances : Multiset String
deriving DecidableEq

/-- Canonical form of a stage with child order forgotten. -/
def canonStage (st : JStage) : CanonStageT :=
  (st.id, st.case_id, st.caseId, (st.sessions : Multiset JSession), st.rest)

/-- Canonical form of a case with child order forgotten (recursively). -/
def canonCase (cs : JCase) : CanonCaseT :=
  (cs.id, cs.client_id, cs.clientId, Multiset.ofList (cs.stages.map canonStage), cs.rest)

/-- Canonical form of a client with child order forgotten (recursively). -/
def canonClient (c : JClient) : CanonClientT :=
  (c.id, Multiset.ofList (c.cases.map canonCase), c.rest)

/-- Canonical form of an invoice with item order forgotten. -/
def canonInvoice (inv : JInvoice) : CanonInvoiceT :=
  (inv.id, (inv.items : Multiset JInvoiceItem), inv.rest)

/-- Canonical form of a hierarchical document with all array order forgotten:
two documents are "structurally equivalent up to array ordering" (the claim's
equivalence) iff their canonical forms are equal. -/
def canonApp (h : JApp) : CanonAppT :=
  ⟨Multiset.ofList (h.clients.map canonClient),
   (h.adminTasks : Multiset String),
   (h.appointments : Multiset String),
   (h.accountingEntries : Multiset String),
   (h.assistants : Multiset String),
   Multiset.ofList (h.invoices.map canonInvoice),
   (h.documents : Multiset String),
   (h.profiles : Multiset String),
   (h.siteFinances : Multiset String)⟩

/-! ### The manualSync merge pipeline (part_001)

The flat data is restricted to the seven collections the claims are about
(`clients`, `cases`, `stages`, `sessions`, `invoices`, `invoice_items`,
`case_documents`); the remaining six flat collections (`admin_tasks`,
`appointments`, `accounting_entries`, `assistants`, `profiles`,
`site_finances`) run through the same per-collection merge loop, are not
touched by the orphan checks, and play no part in any claim. -/

/-- The flat collections a sync run merges (see the section comment). -/
structure SFlat where
  clients : List MRec
  cases : List MRec
  stages : List MRec
  sessions : List MRec
  invoices : List MRec
  invoice_items : List MRec
  case_documents : List MRec
deriving DecidableEq, Repr

/-- The local per-collection deletion log (`deletedIds` of `useSync`),
restricted to the modelled collections. -/
structure DeletedIdsM where
  clients : List String
  cases : List String
  stages : List String
  sessions : List String
  invoices : List String
  invoiceItems : List String
  documents : List String
deriving DecidableEq, Repr

/-- `uploadPendingDocuments` (part_001 lines 222–244): for each document in
state `pending_upload`, read the local file (`hasFile`) and upload the blob
(`uploadOk`); ids of successfully uploaded documents are collected, all
failures (missing file, storage error) are caught and skipped. -/
def uploadPendingDocuments (docs : List MRec) (hasFile uploadOk : String → Bool) :
    List String :=
  (docs.filter fun d => d.state = DocState.pending_upload).filterMap fun d =>
    if hasFile d.id && uploadOk d.id then some d.id else none

/-- The `docsToUpsert` filter of `manualSync` (part_001 lines 362–379): a
`pending_upload` document is pushed with state `synced` when its binary was
uploaded, and dropped from the push otherwise; documents in any other state
pass through unchanged. -/
def filterDocsForUpsert (docs : List MRec) (uploadedIds : List String) : List MRec :=
  docs.filterMap fun d =>
    if d.state = DocState.pending_upload then
      if uploadedIds.contains d.id then some { d with state := DocState.synced }
      else none
    else some d

/-- `validSet.has(record.fk)`: a JS `Set` of ids never contains `undefined`,
so an absent foreign-key property never matches. -/
def matchesSet (ids : List String) : Option String → Bool
  | some v => ids.contains v
  | none => false

/-- The merge portion of `manualSync` (part_001 lines 292–379): the
per-collection merge loop, then the orphan checks — upsert cases / stages /
sessions are filtered against the valid parent-id sets built from the remote
collections plus the (already filtered) upserts, the merged cases / stages /
sessions and both document lists against the same sets — and finally the
pending-upload document filter on the push set.  Returns (merged set, push
set).  Invoices and invoice items are not pruned by the source. -/
def syncMerge (localF remoteF : SFlat) (d : DeletedIdsM) (uploadedIds : List String) :
    SFlat × SFlat :=
  let mClients := mergeCollection localF.clients remoteF.clients d.clients
  let mCases := mergeCollection localF.cases remoteF.cases d.cases
  let mStages := mergeCollection localF.stages remoteF.stages d.stages
  let mSessions := mergeCollection localF.sessions remoteF.sessions d.sessions
  let mInvoices := mergeCollection localF.invoices remoteF.invoices d.invoices
  let mItems := mergeCollection localF.invoice_items remoteF.invoice_items d.invoiceItems
  let mDocs := mergeCollection localF.case_documents remoteF.case_documents d.documents
  let validClientIds := remoteF.clients.map MRec.id ++ mClients.upserts.map MRec.id
  let upsCases := mCases.upserts.filter fun c => matchesSet validClientIds c.fk
  let validCaseIds := remoteF.cases.map MRec.id ++ upsCases.map MRec.id
  let upsStages := mStages.upserts.filter fun s => matchesSet validCaseIds s.fk
  let validStageIds := remoteF.stages.map MRec.id ++ upsStages.map MRec.id
  let upsSessions := mSessions.upserts.filter fun s => matchesSet validStageIds s.fk
  let mergedCases := mCases.merged.filter fun c => matchesSet validClientIds c.fk
  let mergedStages := mStages.merged.filter fun s => matchesSet validCaseIds s.fk
  let mergedSessions := mSessions.merged.filter fun s => matchesSet validStageIds s.fk
  let mergedDocs := mDocs.merged.filter fun doc => matchesSet validCaseIds doc.fk
  let upsDocs0 := mDocs.upserts.filter fun doc => matchesSet validCaseIds doc.fk
  let upsDocs := filterDocsForUpsert upsDocs0 uploadedIds
  (⟨mClients.merged, mergedCases, mergedStages, mergedSessions,
     mInvoices.merged, mItems.merged, mergedDocs⟩,
   ⟨mClients.upserts, upsCases, upsStages, upsSessions,
     mInvoices.upserts, mItems.upserts, upsDocs⟩)

/-- The `upsertedDataMap` of `manualSync` (part_001 lines 420–421):
`Object.values(upsertedFlatData)` walked in field order, every record keyed
by its id into one shared map. -/
def buildUpsertedMap (u : SFlat) : List (String × MRec) :=
  (u.clients ++ u.cases ++ u.stages ++ u.sessions ++ u.invoices ++
    u.invoice_items ++ u.case_documents).foldl (fun m i => jsSet m i.id i) []

/-- Patching of the upsert response (part_001 lines 411–418): documents whose
binary was just uploaded come back marked `synced`. -/
def patchUploadedDocs (u : SFlat) (uploadedIds : List String) : SFlat :=
  { u with
    case_documents := u.case_documents.map fun dc =>
      if uploadedIds.contains dc.id then { dc with state := DocState.synced } else dc }

/-- Replacement of merged records by the server-returned upserted versions
(part_001 lines 423–426): `upsertedDataMap.get(item.id) || item` for every
merged item of every collection. -/
def replaceWithUpserted (merged upserted : SFlat) : SFlat :=
  let m := buildUpsertedMap upserted
  let rep := fun (items : List MRec) => items.map fun item => (jsGet m item.id).getD item
  ⟨rep merged.clients, rep merged.cases, rep merged.stages, rep merged.sessions,
   rep merged.invoices, rep merged.invoice_items, rep merged.case_documents⟩

/-- The `flatDeletes` sent to `deleteDataFromSupabase` (part_001 lines
384–398), restricted to the modelled collections (the passthrough collections
map their id lists just as directly); each entry is simply the record id (the
`{id}` / `{name}` wrapper is dropped). -/
structure FlatDeletesM where
  clients : List String
  cases : List String
  stages : List String
  sessions : List String
  invoices : List String
  invoice_items : List String
  case_documents : List String
deriving DecidableEq, Repr

/-- Builds `flatDeletes` from the local deletion log: every collection's
deleted ids are forwarded except `case_documents`, which is hard-coded empty
(`// Do NOT send document deletes`, part_001 line 395). -/
def buildFlatDeletes (d : DeletedIdsM) : FlatDeletesM :=
  { clients := d.clients
    cases := d.cases
    stages := d.stages
    sessions := d.sessions
    invoices := d.invoices
    invoice_items := d.invoiceItems
    case_documents := [] }

/-- The slice of the local store relevant to document deletion
(`useSupabaseData`, part_002): the document metadata list and the deletion
log (which that hook pins to `getInitialDeletedIds()`). -/
structure LocalStore where
  documents : List MRec
  deletedIds : DeletedIdsM
deriving DecidableEq, Repr

/-- `deleteDocument` (part_002 lines 283–285): remove the document from the
local list; nothing else — no tombstone append, no remote call. -/
def deleteDocument (s : LocalStore) (docId : String) : LocalStore :=
  { s with documents := s.documents.filter fun dc => dc.id ≠ docId }

/-- A backend (PostgREST) error: SQLSTATE code and message. -/
structure PgError where
  code : String
  message : String
deriving DecidableEq, Repr

/-- `String.prototype.includes` on character lists. -/
def charsContain (pat : List Char) : List Char → Bool
  | [] => pat.isEmpty
  | c :: t => pat.isPrefixOf (c :: t) || charsContain pat t

/-- `s.includes(pat)`. -/
def strContains (s pat : String) : Bool :=
  charsContain pat.toList s.toList

/-- `fetchTable` of the first `useOnlineData` version (part_000 lines
100–111): a JWT-expired message aborts first; then error code 42501 or a
message mentioning `policy` yields an empty list; any other error is
rethrown. -/
def fetchTableA (res : Except PgError (List MRec)) : Except String (List MRec) :=
  match res with
  | Except.ok d => Except.ok d
  | Except.error e =>
    if strContains e.message "JWT expired" then Except.error "session expired"
    else if e.code = "42501" || strContains e.message "policy" then Except.ok []
    else Except.error e.message

/-- `fetchTable` of the second `useOnlineData` version (part_000 lines
338–345): code 42501 or a `policy` message yields an empty list, anything
else is rethrown. -/
def fetchTableB (res : Except PgError (List MRec)) : Except String (List MRec) :=
  match res with
  | Except.ok d => Except.ok d
  | Except.error e =>
    if e.code = "42501" || strContains e.message "policy" then Except.ok []
    else Except.error e.message

/-- `SyncStatus` (useSync). -/
inductive SyncStatusM where
  | loading
  | syncing
  | synced
  | error
  | unconfigured
  | uninitialized
deriving DecidableEq, Repr

/-- Outcome of `checkSupabaseSchema`. -/
inductive SchemaRes where
  | unconfigured
  | uninitializedRes (msg : String)
  | failRes (msg : String)
  | okRes
deriving DecidableEq, Repr

/-- The catch-block classification of `manualSync` (part_001 lines 432–442):
a message naming a missing column or relation sets `uninitialized`, anything
else `error`. -/
def classifyCatch (msg : String) : SyncStatusM :=
  if (strContains msg "column" && strContains msg "does not exist")
      || strContains msg "relation" then
    SyncStatusM.uninitialized
  else SyncStatusM.error

/-- `applyDeletionsToLocal` (part_001 lines 107–172) on the modelled
collections: tombstone filtering per collection, then the cascade filters.
The invoice cascade reads the snake_case property `i.client_id`, which
locally-flattened invoices do not carry (their `fk` is `none` in the data
flattened from the local store), exactly as `matchesSet` renders it. -/
def applyDeletionsToLocal (f : SFlat) (dels : List TombM) : SFlat :=
  if dels.isEmpty then f
  else
    let dm := deletionMap dels
    let filteredClients := filterItems f.clients "clients" dm
    let clientIds := filteredClients.map MRec.id
    let filteredCases :=
      (filterItems f.cases "cases" dm).filter fun c => matchesSet clientIds c.fk
    let caseIds := filteredCases.map MRec.id
    let filteredStages :=
      (filterItems f.stages "stages" dm).filter fun s => matchesSet caseIds s.fk
    let stageIds := filteredStages.map MRec.id
    let filteredSessions :=
      (filterItems f.sessions "sessions" dm).filter fun s => matchesSet stageIds s.fk
    let filteredInvoices :=
      (filterItems f.invoices "invoices" dm).filter fun i => matchesSet clientIds i.fk
    let invoiceIds := filteredInvoices.map MRec.id
    let filteredItems :=
      (filterItems f.invoice_items "invoice_items" dm).filter fun i =>
        matchesSet invoiceIds i.fk
    let filteredDocs :=
      (filterItems f.case_documents "case_documents" dm).filter fun dc =>
        matchesSet caseIds dc.fk
    ⟨filteredClients, filteredCases, filteredStages, filteredSessions,
     filteredInvoices, filteredItems, filteredDocs⟩

/-- The environment of one sync run: the guard inputs and one oracle per
remote interaction (`fetchDeletionsFromSupabase` and
`uploadPendingDocuments` never throw, so their results are plain values). -/
structure SyncEnv where
  syncStatus : SyncStatusM
  isAuthLoading : Bool
  isOnline : Bool
  hasUser : Bool
  schema : SchemaRes
  fetchData : Except String SFlat
  deletions : List TombM
  hasFile : String → Bool
  uploadOk : String → Bool
  deleteRes : Except String Unit
  upsertRes : Except String SFlat

/-- Observable outcome of a sync run: the `setStatus` calls in order, the
remote operations issued, and the arguments of every `onDataSynced`
invocation (the local-store replacement; `constructData` applied at that
boundary is a pure function of the listed flat payload). -/
structure SyncOutcome where
  statusEvents : List SyncStatusM
  remoteOps : List String
  puts : List SFlat
deriving DecidableEq, Repr

/-- `manualSync` (part_001 lines 246–444) as a function of its oracles:
single-flight and precondition guards, schema check, binary uploads, cloud
cleanup, fetch, pure merge (`applyDeletionsToLocal` + `syncMerge`), remote
deletions (issued only when some deletion list is nonempty), the batched
upsert, and only then the single `onDataSynced` with the upsert-patched
merged set; every thrown error lands in the catch block, which classifies
the message and never touches the local store. -/
def manualSyncRun (env : SyncEnv) (localFlat0 : SFlat) (d : DeletedIdsM) : SyncOutcome :=
  if env.syncStatus = SyncStatusM.syncing then ⟨[], [], []⟩
  else if env.isAuthLoading then ⟨[], [], []⟩
  else if !env.isOnline || !env.hasUser then ⟨[SyncStatusM.error], [], []⟩
  else
    let ev0 := [SyncStatusM.syncing]
    let ops0 := ["checkSchema"]
    match env.schema with
    | SchemaRes.unconfigured => ⟨ev0 ++ [SyncStatusM.unconfigured], ops0, []⟩
    | SchemaRes.uninitializedRes _ => ⟨ev0 ++ [SyncStatusM.uninitialized], ops0, []⟩
    | SchemaRes.failRes _ => ⟨ev0 ++ [SyncStatusM.error], ops0, []⟩
    | SchemaRes.okRes =>
      let hasPending := localFlat0.case_documents.any fun dc =>
        dc.state = DocState.pending_upload
      let uploadedIds :=
        if hasPending then
          uploadPendingDocuments localFlat0.case_documents env.hasFile env.uploadOk
        else []
      let ev1 := ev0 ++ (if hasPending then [SyncStatusM.syncing] else [])
      let ops1 := ops0 ++ (if hasPending then ["uploadDocs"] else []) ++ ["cleanupOldDocs"]
      let ev2 := ev1 ++ [SyncStatusM.syncing]
      let ops2 := ops1 ++ ["fetchData", "fetchDeletions"]
      match env.fetchData with
      | Except.error msg => ⟨ev2 ++ [classifyCatch msg], ops2, []⟩
      | Except.ok remoteF =>
        let localFlat := applyDeletionsToLocal localFlat0 env.deletions
        let mergedUps := syncMerge localFlat remoteF d uploadedIds
        let flatDeletes := buildFlatDeletes d
        let hasDeletes := !(flatDeletes.clients.isEmpty && flatDeletes.cases.isEmpty &&
          flatDeletes.stages.isEmpty && flatDeletes.sessions.isEmpty &&
          flatDeletes.invoices.isEmpty && flatDeletes.invoice_items.isEmpty &&
          flatDeletes.case_documents.isEmpty)
        let ev3 := ev2 ++ (if hasDeletes then [SyncStatusM.syncing] else [])
        let ops3 := ops2 ++ (if hasDeletes then ["deleteData"] else [])
        match (if hasDeletes then env.deleteRes else Except.ok ()) with
        | Except.error msg => ⟨ev3 ++ [classifyCatch msg], ops3, []⟩
        | Except.ok _ =>
          let ev4 := ev3 ++ [SyncStatusM.syncing]
          let ops4 := ops3 ++ ["upsertData"]
          match env.upsertRes with
          | Except.error msg => ⟨ev4 ++ [classifyCatch msg], ops4, []⟩
          | Except.ok upserted =>
            let upserted' := patchUploadedDocs upserted uploadedIds
            let finalMerged := replaceWithUpserted mergedUps.1 upserted'
            ⟨ev4 ++ [SyncStatusM.synced], ops4, [finalMerged]⟩

/-- `mergeForRefresh` (part_001 lines 92–105): start from the local items,
let a remote item overwrite the entry only when strictly newer, and append
remote-only items. -/
def mergeForRefresh (localItems remoteItems : List MRec) : List MRec :=
  let finalItems :=
    remoteItems.foldl
      (fun m remoteItem =>
        match jsGet m remoteItem.id with
        | some existingItem =>
          if timeOf remoteItem > timeOf existingItem then jsSet m remoteItem.id remoteItem
          else m
        | none => jsSet m remoteItem.id remoteItem)
      (jsMapOfList MRec.id localItems)
  jsValues finalItems

/-- The deleted-id filtering of `fetchAndRefresh` (part_001 lines 468–475):
each remote collection is filtered against the local deletion log when that
log is nonempty. -/
def filterRemoteByDeleted (remoteF : SFlat) (d : DeletedIdsM) : SFlat :=
  let filt := fun (items : List MRec) (dset : List String) =>
    if dset.isEmpty then items else items.filter fun i => !(dset.contains i.id)
  ⟨filt remoteF.clients d.clients, filt remoteF.cases d.cases,
   filt remoteF.stages d.stages, filt remoteF.sessions d.sessions,
   filt remoteF.invoices d.invoices, filt remoteF.invoice_items d.invoiceItems,
   filt remoteF.case_documents d.documents⟩

/-- `mergeForRefresh` applied per collection (part_001 lines 482–497). -/
def mergeForRefreshAll (localF remoteF : SFlat) : SFlat :=
  ⟨mergeForRefresh localF.clients remoteF.clients,
   mergeForRefresh localF.cases remoteF.cases,
   mergeForRefresh localF.stages remoteF.stages,
   mergeForRefresh localF.sessions remoteF.sessions,
   mergeForRefresh localF.invoices remoteF.invoices,
   mergeForRefresh localF.invoice_items remoteF.invoice_items,
   mergeForRefresh localF.case_documents remoteF.case_documents⟩

/-- `fetchAndRefresh` (part_001 lines 446–508) as a function of its oracles:
the same single-flight guard, silent return when offline or signed out, then
fetch, deletion filtering, per-collection last-writer-wins refresh merge and
one `onDataSynced`; any fetch error sets `error`. -/
def fetchAndRefreshRun (env : SyncEnv) (localFlat0 : SFlat) (d : DeletedIdsM) :
    SyncOutcome :=
  if env.syncStatus = SyncStatusM.syncing || env.isAuthLoading then ⟨[], [], []⟩
  else if !env.isOnline || !env.hasUser then ⟨[], [], []⟩
  else
    match env.fetchData with
    | Except.error _ =>
      ⟨[SyncStatusM.syncing, SyncStatusM.error], ["fetchData", "fetchDeletions"], []⟩
    | Except.ok remoteRaw =>
      let remoteF := filterRemoteByDeleted remoteRaw d
      let localFlat := applyDeletionsToLocal localFlat0 env.deletions
      let mergedF := mergeForRefreshAll localFlat remoteF
      ⟨[SyncStatusM.syncing, SyncStatusM.synced], ["fetchData", "fetchDeletions"], [mergedF]⟩

/-! ## Theorems -/

theorem jsGet_jsSet_self (m : List (String × α)) (k : String) (v : α) :
    jsGet (jsSet m k v) k = some v := by
  induction m with
  | nil => simp [jsSet, jsGet]
  | cons p rest ih =>
    by_cases h : p.1 = k
    · simp [jsSet, jsGet, h]
    · simp [jsSet, jsGet, h, ih]

theorem jsGet_jsSet_ne (m : List (String × α)) {k k' : String} (v : α)
    (h : k' ≠ k) : jsGet (jsSet m k' v) k = jsGet m k := by
  induction m with
  | nil => simp [jsSet, jsGet, h]
  | cons p rest ih =>
    by_cases hp : p.1 = k'
    · have hpk : ¬ p.1 = k := fun hc => h (hp.symm.trans hc)
      simp [jsSet, jsGet, hp, hpk, h]
    · by_cases hk : p.1 = k <;> simp [jsSet, jsGet, hp, hk, ih, Ne.symm h]

theorem mem_jsValues_of_jsGet {m : List (String × α)} {k : String} {v : α}
    (h : jsGet m k = some v) : v ∈ jsValues m := by
  induction m with
  | nil => simp [jsGet] at h
  | cons p rest ih =>
    by_cases hp : p.1 = k
    · simp [jsGet, hp] at h
      simp [jsValues, h]
    · simp [jsGet, hp] at h
      simp [jsValues]
      exact Or.inr (by simpa [jsValues] using ih h)

/-- Lookup after a fold of `jsSet`s none of whose keys is `k` is unchanged. -/
theorem jsGet_foldl_jsSet_of_not_key {β : Type} (key : β → String) (g : β → α)
    (l : List β) (init : List (String × α)) (k : String)
    (h : ∀ i ∈ l, key i ≠ k) :
    jsGet (l.foldl (fun m i => jsSet m (key i) (g i)) init) k = jsGet init k := by
  induction l generalizing init with
  | nil => rfl
  | cons a t ih =>
    have ha : key a ≠ k := h a (by simp)
    have ht : ∀ i ∈ t, key i ≠ k := fun i hi => h i (by simp [hi])
    simp only [List.foldl_cons]
    rw [ih _ ht, jsGet_jsSet_ne _ _ ha]

/-- Lookup after a fold of `jsSet`s over a list whose keys are unique: the
unique element with key `k` determines the result. -/
theorem jsGet_foldl_jsSet_of_mem {β : Type} (key : β → String) (g : β → α)
    (l : List β) (init : List (String × α)) (L : β)
    (hnd : (l.map key).Nodup) (hmem : L ∈ l) :
    jsGet (l.foldl (fun m i => jsSet m (key i) (g i)) init) (key L) = some (g L) := by
  induction l generalizing init with
  | nil => simp at hmem
  | cons a t ih =>
    simp only [List.map_cons, List.nodup_cons] at hnd
    rcases List.mem_cons.mp hmem with h | h
    · subst h
      have ht : ∀ i ∈ t, key i ≠ key L := by
        intro i hi hk
        exact hnd.1 (hk ▸ List.mem_map_of_mem key hi)
      simp only [List.foldl_cons]
      rw [jsGet_foldl_jsSet_of_not_key key g t _ _ ht, jsGet_jsSet_self]
    · have ha : key a ≠ key L := by
        intro hk
        exact hnd.1 (hk ▸ List.mem_map_of_mem key h)
      simp only [List.foldl_cons]
      exact ih _ hnd.2 h

theorem jsGet_jsMapOfList_of_mem {β : Type} (key : β → String) (l : List β)
    (L : β) (hnd : (l.map key).Nodup) (hmem : L ∈ l) :
    jsGet (jsMapOfList key l) (key L) = some L :=
  jsGet_foldl_jsSet_of_mem key id l [] L hnd hmem

theorem jsGet_jsMapOfList_of_not_key {β : Type} (key : β → String) (l : List β)
    (k : String) (h : ∀ i ∈ l, key i ≠ k) :
    jsGet (jsMapOfList key l) k = none :=
  jsGet_foldl_jsSet_of_not_key key id l [] k h


theorem mergeCollection_phase1 (localItems : List MRec)
    (remoteMap : List (String × MRec)) (init : List (String × MRec))
    (ups : List MRec) :
    localItems.foldl
      (fun (acc : List (String × MRec) × List MRec) localItem =>
        match jsGet remoteMap localItem.id with
        | some remoteItem =>
          if timeOf localItem > timeOf remoteItem then
            (jsSet acc.1 localItem.id localItem, acc.2 ++ [localItem])
          else
            (jsSet acc.1 localItem.id remoteItem, acc.2)
        | none => (jsSet acc.1 localItem.id localItem, acc.2 ++ [localItem]))
      (init, ups)
    = (localItems.foldl
        (fun m i => jsSet m i.id (mergeChoice remoteMap i)) init,
       ups ++ localItems.filter (pushPred remoteMap)) := by
  induction localItems generalizing init ups with
  | nil => simp
  | cons a t ih =>
    simp only [List.foldl_cons, List.filter_cons]
    cases h : jsGet remoteMap a.id with
    | some r =>
      by_cases hlt : timeOf a > timeOf r
      · simp only [h, if_pos hlt]
        rw [ih]
        simp [mergeChoice, pushPred, h, hlt]
      · simp only [h, if_neg hlt]
        rw [ih]
        simp [mergeChoice, pushPred, h, hlt]
    | none =>
      simp only [h]
      rw [ih]
      simp [mergeChoice, pushPred, h]

theorem jsGet_phase2 (remoteItems : List MRec) (localMap : List (String × MRec))
    (dset : List String) (fm : List (String × MRec)) (k : String)
    (hk : jsHas localMap k = true) :
    jsGet
      (remoteItems.foldl
        (fun fm r =>
          if jsHas localMap r.id then fm
          else if dset.contains r.id then fm
          else jsSet fm r.id r)
        fm) k = jsGet fm k := by
  induction remoteItems generalizing fm with
  | nil => rfl
  | cons a t ih =>
    simp only [List.foldl_cons]
    rw [ih]
    by_cases h1 : jsHas localMap a.id
    · simp [h1]
    · by_cases h2 : a.id ∈ dset
      · simp [h1, h2]
      · have hne : a.id ≠ k := fun hc => h1 (by rw [hc]; exact hk)
        simp [h1, h2, jsGet_jsSet_ne _ _ hne]

theorem mergeCollection_eq (l r : List MRec) (d : List String) :
    mergeCollection l r d =
      ⟨jsValues
        (r.foldl
          (fun fm ri =>
            if jsHas (jsMapOfList MRec.id l) ri.id then fm
            else if d.contains ri.id then fm
            else jsSet fm ri.id ri)
          (l.foldl (fun m i => jsSet m i.id (mergeChoice (jsMapOfList MRec.id r) i)) [])),
       l.filter (pushPred (jsMapOfList MRec.id r))⟩ := by
  simp only [mergeCollection]
  rw [mergeCollection_phase1]
  simp

theorem jsSet_eq_append {m : List (String × α)} {k : String} (v : α)
    (h : jsGet m k = none) : jsSet m k v = m ++ [(k, v)] := by
  induction m with
  | nil => simp [jsSet]
  | cons p rest ih =>
    by_cases hp : p.1 = k
    · simp [jsGet, hp] at h
    · simp [jsGet, hp] at h
      simp [jsSet, hp, ih h]

theorem jsGet_append_of_none {m₁ m₂ : List (String × α)} {k : String}
    (h : jsGet m₁ k = none) : jsGet (m₁ ++ m₂) k = jsGet m₂ k := by
  induction m₁ with
  | nil => simp
  | cons p rest ih =>
    by_cases hp : p.1 = k
    · simp [jsGet, hp] at h
    · simp [jsGet, hp] at h
      simpa [jsGet, hp] using ih h

/-- Folding `jsSet` over a list with fresh, pairwise-distinct keys appends the
bindings in list order. -/
theorem jsValues_foldl_jsSet {β : Type} (key : β → String) (g : β → α)
    (l : List β) (init : List (String × α))
    (hnd : (l.map key).Nodup) (hfresh : ∀ i ∈ l, jsGet init (key i) = none) :
    jsValues (l.foldl (fun m i => jsSet m (key i) (g i)) init)
      = jsValues init ++ l.map g := by
  induction l generalizing init with
  | nil => simp
  | cons a t ih =>
    simp only [List.map_cons, List.nodup_cons] at hnd
    have hset : jsSet init (key a) (g a) = init ++ [(key a, g a)] :=
      jsSet_eq_append (g a) (hfresh a (by simp))
    have hfresh' : ∀ i ∈ t, jsGet (init ++ [(key a, g a)]) (key i) = none := by
      intro i hi
      have hne : key a ≠ key i := fun hc => hnd.1 (hc ▸ List.mem_map_of_mem key hi)
      rw [jsGet_append_of_none (hfresh i (by simp [hi]))]
      simp [jsGet, hne]
    simp only [List.foldl_cons, hset]
    rw [ih _ hnd.2 hfresh']
    simp [jsValues]

/-- With an empty remote collection the merge keeps every local record and
pushes every local record: each is treated as locally new. -/
theorem mergeCollection_empty_remote (l : List MRec) (d : List String)
    (hnd : (l.map MRec.id).Nodup) :
    mergeCollection l [] d = ⟨l, l⟩ := by
  rw [mergeCollection_eq]
  have hchoice : ∀ i : MRec, mergeChoice (jsMapOfList MRec.id []) i = i := by
    intro i
    simp [mergeChoice, jsMapOfList, jsGet]
  have hpush : ∀ i : MRec, pushPred (jsMapOfList MRec.id []) i = true := by
    intro i
    simp [pushPred, jsMapOfList, jsGet]
  have hvals :
      jsValues (l.foldl (fun m i => jsSet m i.id (mergeChoice (jsMapOfList MRec.id []) i)) [])
        = l.map (mergeChoice (jsMapOfList MRec.id [])) :=
    jsValues_foldl_jsSet MRec.id _ l [] hnd (fun i _ => by simp [jsGet])
  simp only [List.foldl_nil, MergeOut.mk.injEq]
  constructor
  · rw [hvals, show mergeChoice (jsMapOfList MRec.id []) = id from funext hchoice,
      List.map_id]
  · rw [List.filter_eq_self.mpr (fun a _ => hpush a)]

/-- C1.  In the `manualSync` merge, for a record identity present on both
sides: a strictly newer local version wins the merge and is pushed; a
strictly newer remote version wins the merge; an exact `updated_at` tie is
resolved in favour of the remote version, and the local version is then not
pushed. -/
theorem C1_conflict_resolution (localItems remoteItems : List MRec)
    (dset : List String) (L R : MRec)
    (hndl : (localItems.map MRec.id).Nodup)
    (hndr : (remoteItems.map MRec.id).Nodup)
    (hL : L ∈ localItems) (hR : R ∈ remoteItems) (hid : R.id = L.id) :
    (timeOf L > timeOf R →
      L ∈ (mergeCollection localItems remoteItems dset).merged ∧
      L ∈ (mergeCollection localItems remoteItems dset).upserts) ∧
    (timeOf L ≤ timeOf R →
      R ∈ (mergeCollection localItems remoteItems dset).merged ∧
      L ∉ (mergeCollection localItems remoteItems dset).upserts) := by
  have hrm : jsGet (jsMapOfList MRec.id remoteItems) L.id = some R := by
    have := jsGet_jsMapOfList_of_mem MRec.id remoteItems R hndr hR
    rwa [hid] at this
  have hlm : jsHas (jsMapOfList MRec.id localItems) L.id = true := by
    rw [jsHas, jsGet_jsMapOfList_of_mem MRec.id localItems L hndl hL]
    rfl
  have hphase1 :
      jsGet (localItems.foldl
        (fun m i => jsSet m i.id (mergeChoice (jsMapOfList MRec.id remoteItems) i)) [])
        L.id = some (mergeChoice (jsMapOfList MRec.id remoteItems) L) :=
    jsGet_foldl_jsSet_of_mem MRec.id _ localItems [] L hndl hL
  have hfinal :
      jsGet (remoteItems.foldl
        (fun fm ri =>
          if jsHas (jsMapOfList MRec.id localItems) ri.id then fm
          else if dset.contains ri.id then fm
          else jsSet fm ri.id ri)
        (localItems.foldl
          (fun m i => jsSet m i.id (mergeChoice (jsMapOfList MRec.id remoteItems) i)) []))
        L.id = some (mergeChoice (jsMapOfList MRec.id remoteItems) L) := by
    rw [jsGet_phase2 _ _ _ _ _ hlm, hphase1]
  rw [mergeCollection_eq]
  constructor
  · intro hgt
    have hch : mergeChoice (jsMapOfList MRec.id remoteItems) L = L := by
      simp [mergeChoice, hrm, hgt]
    refine ⟨?_, ?_⟩
    · exact mem_jsValues_of_jsGet (hch ▸ hfinal)
    · exact List.mem_filter.mpr ⟨hL, by simp [pushPred, hrm, hgt]⟩
  · intro hle
    have hch : mergeChoice (jsMapOfList MRec.id remoteItems) L = R := by
      simp [mergeChoice, hrm, Nat.not_lt.mpr hle]
    refine ⟨?_, ?_⟩
    · exact mem_jsValues_of_jsGet (hch ▸ hfinal)
    · intro hmem
      have := (List.mem_filter.mp hmem).2
      simp [pushPred, hrm, Nat.not_lt.mpr hle] at this

/-- Witness for C1 at a concrete input: local `updated_at` 2000 beats remote
1000, so the local version is merged and pushed. -/
theorem C1_conflict_resolution_witness :
    (⟨"c1", some 2000, none, DocState.synced, "local"⟩ : MRec) ∈
      (mergeCollection
        [⟨"c1", some 2000, none, DocState.synced, "local"⟩]
        [⟨"c1", some 1000, none, DocState.synced, "remote"⟩] []).merged ∧
    (⟨"c1", some 2000, none, DocState.synced, "local"⟩ : MRec) ∈
      (mergeCollection
        [⟨"c1", some 2000, none, DocState.synced, "local"⟩]
        [⟨"c1", some 1000, none, DocState.synced, "remote"⟩] []).upserts :=
  (C1_conflict_resolution
    [⟨"c1", some 2000, none, DocState.synced, "local"⟩]
    [⟨"c1", some 1000, none, DocState.synced, "remote"⟩] []
    ⟨"c1", some 2000, none, DocState.synced, "local"⟩
    ⟨"c1", some 1000, none, DocState.synced, "remote"⟩
    (by decide) (by decide) (by decide) (by decide) (by decide)).1 (by decide)

/-- C2 counterexample.  A record whose `updated_at` equals the tombstone's
`deleted_at` (so `updated_at ≥ deleted_at − ε`, which the claim says lets it
survive) is nevertheless dropped: the source removes every record with
`updated_at < deleted_at + 2000`, a grace window *added to*, not subtracted
from, the deletion time. -/
theorem C2_grace_window_counterexample :
    jsGet (deletionMap [⟨"clients", "r1", 10000⟩]) ("clients" ++ ":" ++ "r1")
      = some 10000 ∧
    timeOf ⟨"r1", some 10000, none, DocState.synced, ""⟩ ≥ 10000 - 2000 ∧
    filterItems [⟨"r1", some 10000, none, DocState.synced, ""⟩] "clients"
      (deletionMap [⟨"clients", "r1", 10000⟩]) = [] := by
  decide

/-- C2 (amended).  A record matched by a tombstone with deletion time `d` is
dropped by the deletion-application filter iff `updated_at < d + ε`
(ε = 2000 ms); it survives iff `updated_at ≥ d + ε`. -/
theorem C2_grace_window (items : List MRec) (tableName : String)
    (dm : List (String × Nat)) (item : MRec) (deletedAt : Nat)
    (hmatch : jsGet dm (tableName ++ ":" ++ item.id) = some deletedAt) :
    item ∈ filterItems items tableName dm ↔
      item ∈ items ∧ ¬ timeOf item < deletedAt + 2000 := by
  unfold filterItems
  rw [List.mem_filter]
  simp [hmatch]

/-- Witness for C2 (amended): `updated_at = 12000 ≥ 10000 + 2000` survives the
tombstone at 10000. -/
theorem C2_grace_window_witness :
    (⟨"r1", some 12000, none, DocState.synced, ""⟩ : MRec) ∈
      filterItems [⟨"r1", some 12000, none, DocState.synced, ""⟩] "clients"
        (deletionMap [⟨"clients", "r1", 10000⟩]) :=
  (C2_grace_window [⟨"r1", some 12000, none, DocState.synced, ""⟩] "clients"
    (deletionMap [⟨"clients", "r1", 10000⟩])
    ⟨"r1", some 12000, none, DocState.synced, ""⟩ 10000 (by decide)).mpr
    ⟨by decide, by decide⟩

theorem chunkAux_nil (B : Nat) (fuel : Nat) : chunkAux (α := α) B fuel [] = [] := by
  cases fuel <;> rfl

theorem chunkAux_fuel_irrel (B : Nat) (hB : 0 < B) :
    ∀ (f1 : Nat) (l : List α) (f2 : Nat), l.length ≤ f1 → l.length ≤ f2 →
      chunkAux B f1 l = chunkAux B f2 l := by
  intro f1
  induction f1 with
  | zero =>
    intro l f2 h1 _
    have hl : l = [] := List.eq_nil_of_length_eq_zero (Nat.le_zero.mp h1)
    subst hl
    rw [chunkAux_nil, chunkAux_nil]
  | succ f ih =>
    intro l f2 h1 h2
    cases l with
    | nil => rw [chunkAux_nil, chunkAux_nil]
    | cons a t =>
      cases f2 with
      | zero => simp at h2
      | succ f2' =>
        simp only [chunkAux]
        congr 1
        apply ih
        · simp only [List.length_drop, List.length_cons]
          simp only [List.length_cons] at h1
          omega
        · simp only [List.length_drop, List.length_cons]
          simp only [List.length_cons] at h2
          omega

theorem chunkList_cons_eq (B : Nat) (hB : 0 < B) (l : List α) (hl : l ≠ []) :
    chunkList B l = l.take B :: chunkList B (l.drop B) := by
  cases l with
  | nil => exact absurd rfl hl
  | cons a t =>
    show chunkAux B (t.length + 1) (a :: t) = _
    simp only [chunkAux]
    congr 1
    apply chunkAux_fuel_irrel B hB
    · simp only [List.length_drop, List.length_cons]
      omega
    · exact le_rfl

theorem chunkList_length (B : Nat) (hB : 0 < B) :
    ∀ (n : Nat) (l : List α), l.length ≤ n →
      (chunkList B l).length = (l.length + B - 1) / B := by
  intro n
  induction n with
  | zero =>
    intro l h
    have hl : l = [] := List.eq_nil_of_length_eq_zero (Nat.le_zero.mp h)
    subst hl
    show ([] : List (List α)).length = (0 + B - 1) / B
    rw [List.length_nil, Nat.zero_add, Nat.div_eq_of_lt (by omega)]
  | succ n ih =>
    intro l h
    by_cases hl : l = []
    · subst hl
      show ([] : List (List α)).length = (0 + B - 1) / B
      rw [List.length_nil, Nat.zero_add, Nat.div_eq_of_lt (by omega)]
    · rw [chunkList_cons_eq B hB l hl]
      have hmpos : 1 ≤ l.length := List.length_pos.mpr hl
      simp only [List.length_cons]
      rw [ih (l.drop B) (by simp only [List.length_drop]; omega)]
      simp only [List.length_drop]
      by_cases hc : l.length ≤ B
      · have h0 : l.length - B = 0 := by omega
        rw [h0, Nat.zero_add, Nat.div_eq_of_lt (by omega), Nat.zero_add]
        have : (l.length + B - 1) / B = 1 :=
          Nat.div_eq_of_lt_le (by omega) (by omega)
        omega
      · have e1 : l.length - B + B - 1 = l.length - 1 := by omega
        have e2 : l.length + B - 1 = (l.length - 1) + B := by omega
        rw [e1, e2, Nat.add_div_right _ hB]

theorem chunkList_join (B : Nat) (hB : 0 < B) :
    ∀ (n : Nat) (l : List α), l.length ≤ n → (chunkList B l).flatten = l := by
  intro n
  induction n with
  | zero =>
    intro l h
    have hl : l = [] := List.eq_nil_of_length_eq_zero (Nat.le_zero.mp h)
    subst hl
    rfl
  | succ n ih =>
    intro l h
    by_cases hl : l = []
    · subst hl
      rfl
    · rw [chunkList_cons_eq B hB l hl, List.flatten_cons,
        ih (l.drop B) (by simp only [List.length_drop]; omega),
        List.take_append_drop]

theorem chunkList_batch_le (B : Nat) (hB : 0 < B) :
    ∀ (n : Nat) (l : List α), l.length ≤ n →
      ∀ b ∈ chunkList B l, b.length ≤ B := by
  intro n
  induction n with
  | zero =>
    intro l h b hb
    have hl : l = [] := List.eq_nil_of_length_eq_zero (Nat.le_zero.mp h)
    subst hl
    simp [chunkList, chunkAux] at hb
  | succ n ih =>
    intro l h b hb
    by_cases hl : l = []
    · subst hl
      simp [chunkList, chunkAux] at hb
    · rw [chunkList_cons_eq B hB l hl] at hb
      rcases List.mem_cons.mp hb with hb | hb
      · subst hb
        simp [List.length_take]
      · exact ih (l.drop B) (by simp only [List.length_drop]; omega) b hb

theorem runBatches_first_fail (fails : Nat → Bool) :
    ∀ (bs : List (List α)) (s k : Nat), k < bs.length →
      (∀ j, j < k → fails (s + j) = false) → fails (s + k) = true →
      runBatches fails bs s = ⟨bs.take k, some (s + k), List.range' s (k + 1)⟩ := by
  intro bs
  induction bs with
  | nil =>
    intro s k hk _ _
    simp at hk
  | cons b t ih =>
    intro s k hk hfirst hfail
    cases k with
    | zero =>
      have hs : fails s = true := by simpa using hfail
      simp [runBatches, hs, List.range'_one]
    | succ k' =>
      have hs : fails s = false := by simpa using hfirst 0 (Nat.succ_pos k')
      have hrec := ih (s + 1) k'
        (by simpa using Nat.lt_of_succ_lt_succ hk)
        (fun j hj => by
          have := hfirst (j + 1) (Nat.succ_lt_succ hj)
          simpa [Nat.add_assoc, Nat.add_comm 1 j] using this)
        (by
          have : s + 1 + k' = s + (k' + 1) := by omega
          rw [this]
          exact hfail)
      simp only [runBatches, hs, Bool.false_eq_true, if_false, hrec]
      have h1 : s + 1 + k' = s + (k' + 1) := by omega
      have h2 : List.range' s (k' + 1 + 1) = s :: List.range' (s + 1) (k' + 1) :=
        List.range'_succ s (k' + 1) 1
      rw [List.take_succ_cons, h1, h2]

/-- C5.  The push splits the records of a table into consecutive batches of
the fixed batch size `B` (the source instantiates `B = 40` in
hooks/useOnlineData.ts and `B = 200` in part_000), issued strictly
sequentially; the batches partition the record list, there are
`⌈n / B⌉ = (n + B − 1) / B` of them, and when the first failing batch is
batch index `k` the loop throws there: exactly the batches before `k` are
committed, batch `k` reports the failure, and no later batch is ever
attempted. -/
theorem C5_batched_push {α : Type} (B : Nat) (records : List α)
    (fails : Nat → Bool) (k : Nat) (hB : 0 < B)
    (hk : k < (chunkList B records).length)
    (hfirst : ∀ j, j < k → fails j = false) (hfail : fails k = true) :
    (chunkList B records).length = (records.length + B - 1) / B ∧
    (chunkList B records).flatten = records ∧
    (∀ b ∈ chunkList B records, b.length ≤ B) ∧
    runBatches fails (chunkList B records) 0 =
      ⟨(chunkList B records).take k, some k, List.range (k + 1)⟩ := by
  refine ⟨chunkList_length B hB records.length records le_rfl,
    chunkList_join B hB records.length records le_rfl,
    chunkList_batch_le B hB records.length records le_rfl, ?_⟩
  have h := runBatches_first_fail fails (chunkList B records) 0 k hk
    (fun j hj => by simpa using hfirst j hj) (by simpa using hfail)
  rw [h]
  simp [List.range_eq_range']

/-- Witness for C5, the spec's Scenario D: 250 records at batch size 40 give
7 batches; with batch index 3 (the 4th batch) failing, batches 1–3 are
committed, the failure is reported at batch 4, and batches 5–7 are never
attempted. -/
theorem C5_batched_push_witness :
    runBatches (fun j => j == 3) (chunkList 40 (List.range 250)) 0 =
      ⟨(chunkList 40 (List.range 250)).take 3, some 3, List.range 4⟩ ∧
    (chunkList 40 (List.range 250)).length = 7 := by
  have h := C5_batched_push 40 (List.range 250) (fun j => j == 3) 3 (by decide)
    (by
      rw [chunkList_length 40 (by decide) (List.range 250).length (List.range 250) le_rfl]
      simp)
    (by decide) (by decide)
  refine ⟨h.2.2.2, ?_⟩
  rw [h.1]
  simp

theorem flatMap_congr_mem {α β : Type} {l : List α} {f g : α → List β}
    (h : ∀ a ∈ l, f a = g a) : l.flatMap f = l.flatMap g := by
  induction l with
  | nil => rfl
  | cons a t ih =>
    simp only [List.flatMap_cons]
    rw [h a (by simp), ih (fun a ha => h a (by simp [ha]))]

theorem jsOrKey_some (x : String) (y : Option String) (hx : ¬ x = "") :
    jsOrKey (some x) y = some x := by
  simp [jsOrKey, truthyStr, hx]

/-- The grouping bucket of a parent: filtering the flattened children of a
list of parents with pairwise-distinct ids by one parent's id returns exactly
that parent's annotated children. -/
theorem flatMap_ann_filter {P C : Type} (parents : List P) (pid : P → String)
    (children : P → List C) (ann : String → C → C) (ckey : C → Option String)
    (hkey : ∀ p ∈ parents, ∀ c, ckey (ann (pid p) c) = some (pid p))
    (hnd : (parents.map pid).Nodup) (p : P) (hp : p ∈ parents) :
    (parents.flatMap fun q => (children q).map (ann (pid q))).filter
        (fun c => ckey c = some (pid p))
      = (children p).map (ann (pid p)) := by
  induction parents with
  | nil => simp at hp
  | cons q rest ih =>
    simp only [List.map_cons, List.nodup_cons] at hnd
    simp only [List.flatMap_cons, List.filter_append]
    rcases List.mem_cons.mp hp with hpq | hpr
    · subst hpq
      have h1 : ((children p).map (ann (pid p))).filter
          (fun c => ckey c = some (pid p)) = (children p).map (ann (pid p)) := by
        rw [List.filter_eq_self]
        intro a ha
        rcases List.mem_map.mp ha with ⟨c, _, rfl⟩
        simp [hkey p (by simp)]
      have h2 : (rest.flatMap fun q' => (children q').map (ann (pid q'))).filter
          (fun c => ckey c = some (pid p)) = [] := by
        rw [List.filter_eq_nil_iff]
        intro a ha
        rcases List.mem_flatMap.mp ha with ⟨q', hq', ha'⟩
        rcases List.mem_map.mp ha' with ⟨c, _, rfl⟩
        rw [hkey q' (by simp [hq'])]
        simp only [decide_eq_true_eq, Option.some.injEq]
        intro hcontra
        exact hnd.1 (hcontra ▸ List.mem_map_of_mem pid hq')
      rw [h1, h2, List.append_nil]
    · have h1 : ((children q).map (ann (pid q))).filter
          (fun c => ckey c = some (pid p)) = [] := by
        rw [List.filter_eq_nil_iff]
        intro a ha
        rcases List.mem_map.mp ha with ⟨c, _, rfl⟩
        rw [hkey q (by simp)]
        simp only [decide_eq_true_eq, Option.some.injEq]
        intro hcontra
        exact hnd.1 (hcontra ▸ List.mem_map_of_mem pid hpr)
      rw [h1, List.nil_append]
      exact ih (fun p' hp' c => hkey p' (by simp [hp']) c) hnd.2 hpr

theorem flatten_cases_def (h : JApp) :
    (flattenData h).cases
      = h.clients.flatMap fun c =>
          c.cases.map fun cs => { cs with client_id := some c.id } := rfl

theorem flatten_stages_def (h : JApp) :
    (flattenData h).stages
      = (flattenData h).cases.flatMap fun cs =>
          cs.stages.map fun st => { st with case_id := some cs.id } := rfl

theorem flatten_caseIds (h : JApp) :
    (flattenData h).cases.map JCase.id
      = (h.clients.flatMap JClient.cases).map JCase.id := by
  rw [flatten_cases_def, List.map_flatMap, List.map_flatMap]
  exact flatMap_congr_mem fun c _ => by rw [List.map_map]; rfl

theorem flatten_stageIds (h : JApp) :
    (flattenData h).stages.map JStage.id
      = (((h.clients.flatMap JClient.cases).flatMap JCase.stages).map JStage.id) := by
  rw [flatten_stages_def, flatten_cases_def, List.map_flatMap, List.flatMap_assoc]
  rw [List.map_flatMap, List.flatMap_assoc]
  refine flatMap_congr_mem fun c _ => ?_
  rw [List.flatMap_map]
  exact flatMap_congr_mem fun cs _ => by rw [List.map_map]; rfl

theorem sessionsFor_flatten (h : JApp)
    (hsnd : ((flattenData h).stages.map JStage.id).Nodup)
    (hsne : ∀ st ∈ (flattenData h).stages, ¬ st.id = "") :
    ∀ st ∈ (flattenData h).stages,
      sessionsFor (flattenData h) st.id = st.sessions.map (annSession st.id) :=
  fun st hst =>
    flatMap_ann_filter (flattenData h).stages JStage.id JStage.sessions
      (fun sid s => { s with stage_id := some sid })
      (fun s => jsOrKey s.stage_id s.stageId)
      (fun p hp c => jsOrKey_some p.id c.stageId (hsne p hp))
      hsnd st hst

theorem stagesWithSessions_flatten (h : JApp)
    (hsnd : ((flattenData h).stages.map JStage.id).Nodup)
    (hsne : ∀ st ∈ (flattenData h).stages, ¬ st.id = "") :
    stagesWithSessions (flattenData h)
      = (flattenData h).cases.flatMap fun cs => cs.stages.map (annStage cs.id) := by
  unfold stagesWithSessions
  rw [flatten_stages_def, List.map_flatMap]
  refine flatMap_congr_mem fun cs hcs => ?_
  rw [List.map_map]
  refine List.map_congr_left fun st0 hst0 => ?_
  refine congrArg (fun ss => ({ st0 with case_id := some cs.id, sessions := ss } : JStage)) ?_
  exact sessionsFor_flatten h hsnd hsne ({ st0 with case_id := some cs.id })
    (by rw [flatten_stages_def]
        exact List.mem_flatMap.mpr ⟨cs, hcs, List.mem_map_of_mem _ hst0⟩)

theorem stagesFor_flatten (h : JApp)
    (hknd : ((flattenData h).cases.map JCase.id).Nodup)
    (hkne : ∀ cs ∈ (flattenData h).cases, ¬ cs.id = "")
    (hsnd : ((flattenData h).stages.map JStage.id).Nodup)
    (hsne : ∀ st ∈ (flattenData h).stages, ¬ st.id = "") :
    ∀ cs ∈ (flattenData h).cases,
      stagesFor (flattenData h) cs.id = cs.stages.map (annStage cs.id) := by
  intro cs hcs
  unfold stagesFor
  rw [stagesWithSessions_flatten h hsnd hsne]
  exact flatMap_ann_filter (flattenData h).cases JCase.id JCase.stages annStage
    (fun st => jsOrKey st.case_id st.caseId)
    (fun p hp c => jsOrKey_some p.id c.caseId (hkne p hp))
    hknd cs hcs

theorem casesWithStages_flatten (h : JApp)
    (hknd : ((flattenData h).cases.map JCase.id).Nodup)
    (hkne : ∀ cs ∈ (flattenData h).cases, ¬ cs.id = "")
    (hsnd : ((flattenData h).stages.map JStage.id).Nodup)
    (hsne : ∀ st ∈ (flattenData h).stages, ¬ st.id = "") :
    casesWithStages (flattenData h)
      = h.clients.flatMap fun c => c.cases.map (annCase c.id) := by
  unfold casesWithStages
  rw [flatten_cases_def, List.map_flatMap]
  refine flatMap_congr_mem fun c hc => ?_
  rw [List.map_map]
  refine List.map_congr_left fun cs0 hcs0 => ?_
  refine congrArg (fun x => ({ cs0 with client_id := some c.id, stages := x } : JCase)) ?_
  exact stagesFor_flatten h hknd hkne hsnd hsne ({ cs0 with client_id := some c.id })
    (by rw [flatten_cases_def]
        exact List.mem_flatMap.mpr ⟨c, hc, List.mem_map_of_mem _ hcs0⟩)

theorem JApp_ext (a b : JApp)
    (h1 : a.clients = b.clients) (h2 : a.adminTasks = b.adminTasks)
    (h3 : a.appointments = b.appointments)
    (h4 : a.accountingEntries = b.accountingEntries)
    (h5 : a.assistants = b.assistants) (h6 : a.invoices = b.invoices)
    (h7 : a.documents = b.documents) (h8 : a.profiles = b.profiles)
    (h9 : a.siteFinances = b.siteFinances) : a = b := by
  cases a
  cases b
  simp only [JApp.mk.injEq]
  exact ⟨h1, h2, h3, h4, h5, h6, h7, h8, h9⟩

/-- C3 (amended).  For a hierarchical document whose client / case / stage /
invoice ids are pairwise distinct and nonempty, reconstructing the flattened
document returns it exactly — up to the parent-FK annotation the flattening
injects: every nested case's `client_id`, stage's `case_id`, session's
`stage_id` and item's `invoice_id` comes back overwritten with its parent's
id (`annApp`).  Both directions are total functions, and for an already
FK-annotated document (`annApp h = h`) the round trip is the identity, hence
in particular an equality up to array ordering. -/
theorem C3_flatten_reconstruct (h : JApp)
    (hcnd : (h.clients.map JClient.id).Nodup)
    (hknd : ((h.clients.flatMap JClient.cases).map JCase.id).Nodup)
    (hsnd : (((h.clients.flatMap JClient.cases).flatMap JCase.stages).map JStage.id).Nodup)
    (hind : (h.invoices.map JInvoice.id).Nodup)
    (hcne : ∀ c ∈ h.clients, ¬ c.id = "")
    (hkne : ∀ cs ∈ h.clients.flatMap JClient.cases, ¬ cs.id = "")
    (hsne : ∀ st ∈ (h.clients.flatMap JClient.cases).flatMap JCase.stages, ¬ st.id = "") :
    constructData (flattenData h) = annApp h := by
  have hknd' : ((flattenData h).cases.map JCase.id).Nodup := by
    rw [flatten_caseIds]
    exact hknd
  have hkne' : ∀ cs ∈ (flattenData h).cases, ¬ cs.id = "" := by
    intro cs hcs
    rw [flatten_cases_def] at hcs
    rcases List.mem_flatMap.mp hcs with ⟨c, hc, hcs'⟩
    rcases List.mem_map.mp hcs' with ⟨cs0, hcs0, rfl⟩
    exact hkne cs0 (List.mem_flatMap.mpr ⟨c, hc, hcs0⟩)
  have hsnd' : ((flattenData h).stages.map JStage.id).Nodup := by
    rw [flatten_stageIds]
    exact hsnd
  have hsne' : ∀ st ∈ (flattenData h).stages, ¬ st.id = "" := by
    intro st hst
    rw [flatten_stages_def] at hst
    rcases List.mem_flatMap.mp hst with ⟨cs, hcs, hst'⟩
    rcases List.mem_map.mp hst' with ⟨st0, hst0, rfl⟩
    rw [flatten_cases_def] at hcs
    rcases List.mem_flatMap.mp hcs with ⟨c, hc, hcs'⟩
    rcases List.mem_map.mp hcs' with ⟨cs0, hcs0, rfl⟩
    exact hsne st0
      (List.mem_flatMap.mpr ⟨cs0, List.mem_flatMap.mpr ⟨c, hc, hcs0⟩, hst0⟩)
  refine JApp_ext _ _ ?_ rfl rfl rfl rfl ?_ rfl rfl rfl
  · show (flattenData h).clients.map (fun c => { c with cases := casesFor (flattenData h) c.id })
      = h.clients.map annClient
    rw [show (flattenData h).clients
        = h.clients.map (fun c => { c with cases := ([] : List JCase) }) from rfl,
      List.map_map]
    refine List.map_congr_left fun c hc => ?_
    refine congrArg (fun x => ({ c with cases := x } : JClient)) ?_
    show casesFor (flattenData h) c.id = c.cases.map (annCase c.id)
    unfold casesFor
    rw [casesWithStages_flatten h hknd' hkne' hsnd' hsne']
    exact flatMap_ann_filter h.clients JClient.id JClient.cases annCase
      (fun cs => jsOrKey cs.client_id cs.clientId)
      (fun p hp c' => jsOrKey_some p.id c'.clientId (hcne p hp))
      hcnd c hc
  · show (flattenData h).invoices.map
        (fun inv => { inv with
          items := (flattenData h).invoice_items.filter fun i => i.invoice_id = some inv.id })
      = h.invoices.map annInvoice
    rw [show (flattenData h).invoices
        = h.invoices.map (fun inv => { inv with items := ([] : List JInvoiceItem) }) from rfl,
      List.map_map]
    refine List.map_congr_left fun inv hinv => ?_
    refine congrArg (fun x => ({ inv with items := x } : JInvoice)) ?_
    exact flatMap_ann_filter h.invoices JInvoice.id JInvoice.items
      (fun iid i => { i with invoice_id := some iid }) JInvoiceItem.invoice_id
      (fun p _ c => rfl) hind inv hinv

/-- C3 counterexample.  A valid hierarchical document (unique, nonempty ids)
whose one nested case simply lacks the optional `client_id` property is *not*
structurally equivalent to its round trip, even up to array ordering: the
reconstruction hands the case back with `client_id` set to its parent's id. -/
theorem C3_roundtrip_counterexample :
    ((⟨[⟨"c1", [⟨"k1", none, none, [], "kr"⟩], "cr"⟩],
       [], [], [], [], [], [], [], []⟩ : JApp).clients.map JClient.id).Nodup ∧
    canonApp (constructData (flattenData
      (⟨[⟨"c1", [⟨"k1", none, none, [], "kr"⟩], "cr"⟩],
        [], [], [], [], [], [], [], []⟩ : JApp)))
      ≠ canonApp (⟨[⟨"c1", [⟨"k1", none, none, [], "kr"⟩], "cr"⟩],
        [], [], [], [], [], [], [], []⟩ : JApp) :=
  ⟨by decide, by decide⟩

/-- Witness for C3 (amended) at a concrete one-client / one-invoice document
that already carries its parent FKs: the round trip reproduces it exactly. -/
theorem C3_flatten_reconstruct_witness :
    constructData (flattenData
      (⟨[⟨"c1", [⟨"k1", some "c1", none,
           [⟨"st1", some "k1", none, [⟨"s1", some "st1", none, "sr"⟩], "tr"⟩], "kr"⟩], "cr"⟩],
        ["t1"], [], [], ["a1"],
        [⟨"v1", [⟨"i1", some "v1", "ir"⟩], "vr"⟩], ["d1"], [], []⟩ : JApp))
      = annApp
        (⟨[⟨"c1", [⟨"k1", some "c1", none,
             [⟨"st1", some "k1", none, [⟨"s1", some "st1", none, "sr"⟩], "tr"⟩], "kr"⟩], "cr"⟩],
          ["t1"], [], [], ["a1"],
          [⟨"v1", [⟨"i1", some "v1", "ir"⟩], "vr"⟩], ["d1"], [], []⟩ : JApp) :=
  C3_flatten_reconstruct _ (by decide) (by decide) (by decide) (by decide)
    (by decide) (by decide) (by decide)

theorem mem_filterDocsForUpsert_fk {l : List MRec} {u : List String} {e : MRec}
    (he : e ∈ filterDocsForUpsert l u) : ∃ a ∈ l, e.fk = a.fk := by
  rcases List.mem_filterMap.mp he with ⟨a, ha, hfa⟩
  refine ⟨a, ha, ?_⟩
  split at hfa
  · split at hfa
    · simp only [Option.some.injEq] at hfa
      subst hfa
      rfl
    · simp at hfa
  · simp only [Option.some.injEq] at hfa
    subst hfa
    rfl

/-- C4 (amended).  After the merge and the orphan checks, every case (in the
merged set and in the push set) has its `client_id` in the *valid client id
set* — the ids of the remote clients together with the pushed clients; every
stage's `case_id` and every case document's `caseId` is in the corresponding
valid case-id set, and every session's `stage_id` in the valid stage-id set.
Resolution is against remote ∪ push, not against the merged set itself, and
invoices / invoice items are not pruned at all. -/
theorem C4_cascade_pruning (localF remoteF : SFlat) (d : DeletedIdsM)
    (uploadedIds : List String) :
    (∀ cs ∈ (syncMerge localF remoteF d uploadedIds).1.cases,
      matchesSet (remoteF.clients.map MRec.id ++
        (syncMerge localF remoteF d uploadedIds).2.clients.map MRec.id) cs.fk = true) ∧
    (∀ cs ∈ (syncMerge localF remoteF d uploadedIds).2.cases,
      matchesSet (remoteF.clients.map MRec.id ++
        (syncMerge localF remoteF d uploadedIds).2.clients.map MRec.id) cs.fk = true) ∧
    (∀ st ∈ (syncMerge localF remoteF d uploadedIds).1.stages,
      matchesSet (remoteF.cases.map MRec.id ++
        (syncMerge localF remoteF d uploadedIds).2.cases.map MRec.id) st.fk = true) ∧
    (∀ st ∈ (syncMerge localF remoteF d uploadedIds).2.stages,
      matchesSet (remoteF.cases.map MRec.id ++
        (syncMerge localF remoteF d uploadedIds).2.cases.map MRec.id) st.fk = true) ∧
    (∀ sn ∈ (syncMerge localF remoteF d uploadedIds).1.sessions,
      matchesSet (remoteF.stages.map MRec.id ++
        (syncMerge localF remoteF d uploadedIds).2.stages.map MRec.id) sn.fk = true) ∧
    (∀ sn ∈ (syncMerge localF remoteF d uploadedIds).2.sessions,
      matchesSet (remoteF.stages.map MRec.id ++
        (syncMerge localF remoteF d uploadedIds).2.stages.map MRec.id) sn.fk = true) ∧
    (∀ dc ∈ (syncMerge localF remoteF d uploadedIds).1.case_documents,
      matchesSet (remoteF.cases.map MRec.id ++
        (syncMerge localF remoteF d uploadedIds).2.cases.map MRec.id) dc.fk = true) ∧
    (∀ dc ∈ (syncMerge localF remoteF d uploadedIds).2.case_documents,
      matchesSet (remoteF.cases.map MRec.id ++
        (syncMerge localF remoteF d uploadedIds).2.cases.map MRec.id) dc.fk = true) := by
  simp only [syncMerge]
  refine ⟨?_, ?_, ?_, ?_, ?_, ?_, ?_, ?_⟩
  · intro cs hcs
    exact (List.mem_filter.mp hcs).2
  · intro cs hcs
    exact (List.mem_filter.mp hcs).2
  · intro st hst
    exact (List.mem_filter.mp hst).2
  · intro st hst
    exact (List.mem_filter.mp hst).2
  · intro sn hsn
    exact (List.mem_filter.mp hsn).2
  · intro sn hsn
    exact (List.mem_filter.mp hsn).2
  · intro dc hdc
    exact (List.mem_filter.mp hdc).2
  · intro dc hdc
    rcases mem_filterDocsForUpsert_fk hdc with ⟨a, ha, hfk⟩
    rw [hfk]
    exact (List.mem_filter.mp ha).2

/-- C4 counterexample.  A client deleted locally (its id in `deletedIds`)
but still present remotely, together with a remote-only case under it: the
client is excluded from the merged set, yet the case survives merge and
pruning because the valid-id set is built from remote ∪ pushed clients — so
the merged set holds a case whose `client_id` resolves to no merged client.
The same input shows a merged invoice item whose `invoice_id` resolves to no
merged invoice, invoice items being pruned nowhere. -/
theorem C4_cascade_counterexample :
    (syncMerge ⟨[], [], [], [], [], [], []⟩
      ⟨[⟨"x", some 1, none, DocState.synced, ""⟩],
       [⟨"c", some 1, some "x", DocState.synced, ""⟩], [], [],
       [⟨"v", some 1, none, DocState.synced, ""⟩],
       [⟨"t", some 1, some "v", DocState.synced, ""⟩], []⟩
      ⟨["x"], [], [], [], ["v"], [], []⟩ []).1.clients = [] ∧
    (syncMerge ⟨[], [], [], [], [], [], []⟩
      ⟨[⟨"x", some 1, none, DocState.synced, ""⟩],
       [⟨"c", some 1, some "x", DocState.synced, ""⟩], [], [],
       [⟨"v", some 1, none, DocState.synced, ""⟩],
       [⟨"t", some 1, some "v", DocState.synced, ""⟩], []⟩
      ⟨["x"], [], [], [], ["v"], [], []⟩ []).1.cases
      = [⟨"c", some 1, some "x", DocState.synced, ""⟩] ∧
    (syncMerge ⟨[], [], [], [], [], [], []⟩
      ⟨[⟨"x", some 1, none, DocState.synced, ""⟩],
       [⟨"c", some 1, some "x", DocState.synced, ""⟩], [], [],
       [⟨"v", some 1, none, DocState.synced, ""⟩],
       [⟨"t", some 1, some "v", DocState.synced, ""⟩], []⟩
      ⟨["x"], [], [], [], ["v"], [], []⟩ []).1.invoices = [] ∧
    (syncMerge ⟨[], [], [], [], [], [], []⟩
      ⟨[⟨"x", some 1, none, DocState.synced, ""⟩],
       [⟨"c", some 1, some "x", DocState.synced, ""⟩], [], [],
       [⟨"v", some 1, none, DocState.synced, ""⟩],
       [⟨"t", some 1, some "v", DocState.synced, ""⟩], []⟩
      ⟨["x"], [], [], [], ["v"], [], []⟩ []).1.invoice_items
      = [⟨"t", some 1, some "v", DocState.synced, ""⟩] := by
  decide

/-- Witness for C4 (amended): at the counterexample input the surviving
merged case's `client_id` is indeed in the valid set remote ∪ pushed
clients. -/
theorem C4_cascade_pruning_witness :
    matchesSet
      ((⟨[⟨"x", some 1, none, DocState.synced, ""⟩],
         [⟨"c", some 1, some "x", DocState.synced, ""⟩], [], [],
         [⟨"v", some 1, none, DocState.synced, ""⟩],
         [⟨"t", some 1, some "v", DocState.synced, ""⟩], []⟩ : SFlat).clients.map MRec.id ++
        (syncMerge ⟨[], [], [], [], [], [], []⟩
          ⟨[⟨"x", some 1, none, DocState.synced, ""⟩],
           [⟨"c", some 1, some "x", DocState.synced, ""⟩], [], [],
           [⟨"v", some 1, none, DocState.synced, ""⟩],
           [⟨"t", some 1, some "v", DocState.synced, ""⟩], []⟩
          ⟨["x"], [], [], [], ["v"], [], []⟩ []).2.clients.map MRec.id)
      (⟨"c", some 1, some "x", DocState.synced, ""⟩ : MRec).fk = true :=
  (C4_cascade_pruning ⟨[], [], [], [], [], [], []⟩
    ⟨[⟨"x", some 1, none, DocState.synced, ""⟩],
     [⟨"c", some 1, some "x", DocState.synced, ""⟩], [], [],
     [⟨"v", some 1, none, DocState.synced, ""⟩],
     [⟨"t", some 1, some "v", DocState.synced, ""⟩], []⟩
    ⟨["x"], [], [], [], ["v"], [], []⟩ []).1
    ⟨"c", some 1, some "x", DocState.synced, ""⟩ (by decide)

theorem classifyCatch_cases (msg : String) :
    classifyCatch msg = SyncStatusM.uninitialized ∨ classifyCatch msg = SyncStatusM.error := by
  unfold classifyCatch
  split
  · exact Or.inl rfl
  · exact Or.inr rfl

theorem catch_status_cases (ev : List SyncStatusM) (msg : String) :
    (ev ++ [classifyCatch msg]).getLast? = none ∨
    (ev ++ [classifyCatch msg]).getLast? = some SyncStatusM.error ∨
    (ev ++ [classifyCatch msg]).getLast? = some SyncStatusM.unconfigured ∨
    (ev ++ [classifyCatch msg]).getLast? = some SyncStatusM.uninitialized := by
  rw [List.getLast?_concat]
  rcases classifyCatch_cases msg with hcc | hcc
  · exact Or.inr (Or.inr (Or.inr (by rw [hcc])))
  · exact Or.inr (Or.inl (by rw [hcc]))

/-- C6 counterexample.  A sync run whose schema check reports `unconfigured`
fails a step (the schema check) yet transitions to status `unconfigured`,
not to `error` as the claim states.  (The local store is still untouched.) -/
theorem C6_crash_only_counterexample :
    manualSyncRun
      ⟨SyncStatusM.synced, false, true, true, SchemaRes.unconfigured,
        Except.ok ⟨[], [], [], [], [], [], []⟩, [], fun _ => false, fun _ => false,
        Except.ok (), Except.ok ⟨[], [], [], [], [], [], []⟩⟩
      ⟨[], [], [], [], [], [], []⟩ ⟨[], [], [], [], [], [], []⟩
      = ⟨[SyncStatusM.syncing, SyncStatusM.unconfigured], ["checkSchema"], []⟩ ∧
    SyncStatusM.unconfigured ≠ SyncStatusM.error :=
  ⟨rfl, by decide⟩

/-- C6 (amended).  Every `manualSync` run either ends with status `synced`
and invokes the local-store replacement callback exactly once (with the
final merged set, as its last action before reporting `synced`), or invokes
it not at all and ends in a failure status — `error` in general,
`unconfigured` / `uninitialized` for schema-check and schema-mismatch
failures — or returns silently from a guard.  In particular a failed run
never writes the local store. -/
theorem C6_crash_only (env : SyncEnv) (localFlat0 : SFlat) (d : DeletedIdsM) :
    ((manualSyncRun env localFlat0 d).statusEvents.getLast? = some SyncStatusM.synced ∧
      ∃ m, (manualSyncRun env localFlat0 d).puts = [m]) ∨
    ((manualSyncRun env localFlat0 d).puts = [] ∧
      ((manualSyncRun env localFlat0 d).statusEvents.getLast? = none ∨
       (manualSyncRun env localFlat0 d).statusEvents.getLast? = some SyncStatusM.error ∨
       (manualSyncRun env localFlat0 d).statusEvents.getLast? = some SyncStatusM.unconfigured ∨
       (manualSyncRun env localFlat0 d).statusEvents.getLast? = some SyncStatusM.uninitialized)) := by
  unfold manualSyncRun
  by_cases h1 : env.syncStatus = SyncStatusM.syncing
  · rw [if_pos h1]
    exact Or.inr ⟨rfl, Or.inl rfl⟩
  rw [if_neg h1]
  by_cases h2 : env.isAuthLoading = true
  · rw [if_pos h2]
    exact Or.inr ⟨rfl, Or.inl rfl⟩
  rw [if_neg h2]
  by_cases h3 : (!env.isOnline || !env.hasUser) = true
  · rw [if_pos h3]
    exact Or.inr ⟨rfl, Or.inr (Or.inl rfl)⟩
  rw [if_neg h3]
  cases hs : env.schema with
  | unconfigured => exact Or.inr ⟨rfl, Or.inr (Or.inr (Or.inl rfl))⟩
  | uninitializedRes msg => exact Or.inr ⟨rfl, Or.inr (Or.inr (Or.inr rfl))⟩
  | failRes msg => exact Or.inr ⟨rfl, Or.inr (Or.inl rfl)⟩
  | okRes =>
    cases hf : env.fetchData with
    | error msg => exact Or.inr ⟨rfl, catch_status_cases _ msg⟩
    | ok remoteF =>
      simp only []
      by_cases hdel : ((buildFlatDeletes d).clients.isEmpty &&
          (buildFlatDeletes d).cases.isEmpty && (buildFlatDeletes d).stages.isEmpty &&
          (buildFlatDeletes d).sessions.isEmpty && (buildFlatDeletes d).invoices.isEmpty &&
          (buildFlatDeletes d).invoice_items.isEmpty &&
          (buildFlatDeletes d).case_documents.isEmpty) = true
      · rw [hdel]
        cases hu : env.upsertRes with
        | error msg => exact Or.inr ⟨rfl, catch_status_cases _ msg⟩
        | ok upserted => exact Or.inl ⟨List.getLast?_concat _, ⟨_, rfl⟩⟩
      · rw [Bool.not_eq_true] at hdel
        rw [hdel]
        cases hdr : env.deleteRes with
        | error msg => exact Or.inr ⟨rfl, catch_status_cases _ msg⟩
        | ok u =>
          cases hu : env.upsertRes with
          | error msg => exact Or.inr ⟨rfl, catch_status_cases _ msg⟩
          | ok upserted => exact Or.inl ⟨List.getLast?_concat _, ⟨_, rfl⟩⟩

/-- C7.  A sync request while the status is already `syncing` is a complete
no-op, for `manualSync` and for `fetchAndRefresh` alike: no status event is
emitted, no remote operation is issued, and the local store is not written. -/
theorem C7_single_flight (env : SyncEnv) (localFlat0 : SFlat) (d : DeletedIdsM)
    (hsync : env.syncStatus = SyncStatusM.syncing) :
    manualSyncRun env localFlat0 d = ⟨[], [], []⟩ ∧
    fetchAndRefreshRun env localFlat0 d = ⟨[], [], []⟩ := by
  constructor
  · unfold manualSyncRun
    rw [if_pos hsync]
  · unfold fetchAndRefreshRun
    rw [if_pos (by simp [hsync])]

/-- Witness for C7 at a concrete environment already in `syncing`. -/
theorem C7_single_flight_witness :
    manualSyncRun
      ⟨SyncStatusM.syncing, false, true, true, SchemaRes.okRes,
        Except.ok ⟨[], [], [], [], [], [], []⟩, [], fun _ => true, fun _ => true,
        Except.ok (), Except.ok ⟨[], [], [], [], [], [], []⟩⟩
      ⟨[], [], [], [], [], [], []⟩ ⟨[], [], [], [], [], [], []⟩ = ⟨[], [], []⟩ ∧
    fetchAndRefreshRun
      ⟨SyncStatusM.syncing, false, true, true, SchemaRes.okRes,
        Except.ok ⟨[], [], [], [], [], [], []⟩, [], fun _ => true, fun _ => true,
        Except.ok (), Except.ok ⟨[], [], [], [], [], [], []⟩⟩
      ⟨[], [], [], [], [], [], []⟩ ⟨[], [], [], [], [], [], []⟩ = ⟨[], [], []⟩ :=
  C7_single_flight _ _ _ rfl

theorem eq_of_mem_of_nodup_ids {l : List MRec} (hnd : (l.map MRec.id).Nodup)
    {a b : MRec} (ha : a ∈ l) (hb : b ∈ l) (hid : a.id = b.id) : a = b :=
  List.inj_on_of_nodup_map hnd ha hb hid

/-- C8.  For a document in state `pending_upload`: (1) if its local file
exists and the blob upload succeeds, its id lands in the uploaded set; (2) an
uploaded document is included in the push with state `synced`; (3) a document
whose id is not in the uploaded set is excluded from the push for this pass
(no pushed record carries its id); and (4) if the server response therefore
does not mention its id, the merged set keeps the document unchanged — still
`pending_upload` — so the next sync retries it. -/
theorem C8_pending_upload (docs pushDocs : List MRec)
    (hasFile uploadOk : String → Bool) (dc : MRec)
    (hstate : dc.state = DocState.pending_upload)
    (hnd : (pushDocs.map MRec.id).Nodup) :
    (dc ∈ docs → (hasFile dc.id && uploadOk dc.id) = true →
      dc.id ∈ uploadPendingDocuments docs hasFile uploadOk) ∧
    (∀ uploadedIds : List String, dc ∈ pushDocs → dc.id ∈ uploadedIds →
      { dc with state := DocState.synced } ∈ filterDocsForUpsert pushDocs uploadedIds) ∧
    (∀ uploadedIds : List String, dc ∈ pushDocs → dc.id ∉ uploadedIds →
      ∀ e ∈ filterDocsForUpsert pushDocs uploadedIds, e.id ≠ dc.id) ∧
    (∀ merged upserted : SFlat, dc ∈ merged.case_documents →
      jsGet (buildUpsertedMap upserted) dc.id = none →
      dc ∈ (replaceWithUpserted merged upserted).case_documents) := by
  refine ⟨?_, ?_, ?_, ?_⟩
  · intro hmem hup
    refine List.mem_filterMap.mpr ⟨dc, List.mem_filter.mpr ⟨hmem, by simp [hstate]⟩, ?_⟩
    rw [if_pos hup]
  · intro uploadedIds hmem hin
    refine List.mem_filterMap.mpr ⟨dc, hmem, ?_⟩
    rw [if_pos hstate, if_pos (by simpa using hin)]
  · intro uploadedIds hmem hnotin e he heq
    rcases List.mem_filterMap.mp he with ⟨a, haPush, hfa⟩
    have hid : a.id = dc.id := by
      split at hfa
      · split at hfa
        · simp only [Option.some.injEq] at hfa
          subst hfa
          exact heq
        · simp at hfa
      · simp only [Option.some.injEq] at hfa
        subst hfa
        exact heq
    have hadc : a = dc := eq_of_mem_of_nodup_ids hnd haPush hmem hid
    subst hadc
    rw [if_pos hstate, if_neg (by simpa using hnotin)] at hfa
    simp at hfa
  · intro merged upserted hmem hnone
    unfold replaceWithUpserted
    simp only []
    refine List.mem_map.mpr ⟨dc, hmem, ?_⟩
    rw [hnone]
    rfl

/-- Witness for C8 at one pending document whose upload succeeds: its id is
collected and the pushed row carries state `synced`. -/
theorem C8_pending_upload_witness :
    "d1" ∈ uploadPendingDocuments
      [⟨"d1", some 1, some "c1", DocState.pending_upload, ""⟩]
      (fun _ => true) (fun _ => true) ∧
    (⟨"d1", some 1, some "c1", DocState.synced, ""⟩ : MRec) ∈
      filterDocsForUpsert [⟨"d1", some 1, some "c1", DocState.pending_upload, ""⟩] ["d1"] :=
  ⟨(C8_pending_upload [⟨"d1", some 1, some "c1", DocState.pending_upload, ""⟩]
      [⟨"d1", some 1, some "c1", DocState.pending_upload, ""⟩]
      (fun _ => true) (fun _ => true)
      ⟨"d1", some 1, some "c1", DocState.pending_upload, ""⟩
      rfl (by decide)).1 (by decide) rfl,
   (C8_pending_upload [⟨"d1", some 1, some "c1", DocState.pending_upload, ""⟩]
      [⟨"d1", some 1, some "c1", DocState.pending_upload, ""⟩]
      (fun _ => true) (fun _ => true)
      ⟨"d1", some 1, some "c1", DocState.pending_upload, ""⟩
      rfl (by decide)).2.1 ["d1"] (by decide) (by decide)⟩

/-- C9.  Local deletion of a case document is never tombstoned and never
reaches the remote: the `flatDeletes` payload built for the remote-deletion
call always carries an empty `case_documents` list, and `deleteDocument`
only drops the document from the local metadata list, leaving the deletion
log untouched. -/
theorem C9_local_document_deletion (d : DeletedIdsM) (s : LocalStore) (docId : String) :
    (buildFlatDeletes d).case_documents = [] ∧
    (deleteDocument s docId).deletedIds = s.deletedIds :=
  ⟨rfl, rfl⟩

/-- C10 counterexample.  In the first `fetchTable` variant a rejection whose
code is 42501 — the claim's "authorization-denied" class — but whose message
mentions an expired JWT aborts the fetch instead of returning the empty
list. -/
theorem C10_auth_denied_counterexample :
    (⟨"42501", "JWT expired"⟩ : PgError).code = "42501" ∧
    fetchTableA (Except.error ⟨"42501", "JWT expired"⟩) = Except.error "session expired" ∧
    fetchTableA (Except.error ⟨"42501", "JWT expired"⟩) ≠ Except.ok [] :=
  ⟨rfl, rfl, fun h => Except.noConfusion h⟩

/-- C10 (amended).  A read rejected with code 42501 or a policy-violation
message yields an empty list instead of failing the run — in the first
variant only when the message does not also contain "JWT expired", which
aborts with a session error; any other read error is rethrown and aborts the
fetch.  With an empty remote collection the merge then treats every local
record of the collection as local-only/new: all are kept and all are
pushed. -/
theorem C10_auth_denied_empty_fetch (e : PgError) (localItems : List MRec)
    (dset : List String) (hnd : (localItems.map MRec.id).Nodup) :
    ((e.code = "42501" ∨ strContains e.message "policy" = true) →
      fetchTableB (Except.error e) = Except.ok []) ∧
    ((e.code = "42501" ∨ strContains e.message "policy" = true) →
      strContains e.message "JWT expired" = false →
      fetchTableA (Except.error e) = Except.ok []) ∧
    ((¬ e.code = "42501" ∧ strContains e.message "policy" = false) →
      fetchTableB (Except.error e) = Except.error e.message) ∧
    mergeCollection localItems [] dset = ⟨localItems, localItems⟩ := by
  refine ⟨?_, ?_, ?_, mergeCollection_empty_remote localItems dset hnd⟩
  · intro hauth
    show (if (decide (e.code = "42501") || strContains e.message "policy") = true
        then (Except.ok [] : Except String (List MRec))
        else Except.error e.message) = Except.ok []
    rcases hauth with hc | hp
    · rw [if_pos (by simp [hc])]
    · rw [if_pos (by simp [hp])]
  · intro hauth hjwt
    show (if strContains e.message "JWT expired" = true
        then (Except.error "session expired" : Except String (List MRec))
        else if (decide (e.code = "42501") || strContains e.message "policy") = true
          then Except.ok []
          else Except.error e.message) = Except.ok []
    rw [if_neg (by simp [hjwt])]
    rcases hauth with hc | hp
    · rw [if_pos (by simp [hc])]
    · rw [if_pos (by simp [hp])]
  · intro hother
    show (if (decide (e.code = "42501") || strContains e.message "policy") = true
        then (Except.ok [] : Except String (List MRec))
        else Except.error e.message) = Except.error e.message
    rw [if_neg (by simp [hother.1, hother.2])]

/-- Witness for C10 (amended): a plain 42501 rejection yields an empty list
and a one-record local collection merges as all-new against it. -/
theorem C10_auth_denied_empty_fetch_witness :
    fetchTableB (Except.error ⟨"42501", "permission denied for table clients"⟩)
      = Except.ok [] ∧
    mergeCollection [⟨"a", some 1, none, DocState.synced, ""⟩] [] []
      = ⟨[⟨"a", some 1, none, DocState.synced, ""⟩],
         [⟨"a", some 1, none, DocState.synced, ""⟩]⟩ :=
  ⟨(C10_auth_denied_empty_fetch ⟨"42501", "permission denied for table clients"⟩
      [⟨"a", some 1, none, DocState.synced, ""⟩] [] (by decide)).1 (Or.inl rfl),
   (C10_auth_denied_empty_fetch ⟨"42501", "permission denied for table clients"⟩
      [⟨"a", some 1, none, DocState.synced, ""⟩] [] (by decide)).2.2.2⟩

end LawSync
